import Mathlib

/-!
A shallow embedding of the `DynArray<T, Alloc>` dynamic-array container from
`src/data_structures/dynamic_array.h`, together with proofs checking the
container's specification against the code.

Modeling conventions:
* `size_t` values are natural numbers; where the source relies on unsigned
  wrap-around (`start + length - 1`, `mid - 1`, `left + right`) the arithmetic
  is taken modulo `W = 2 ^ 64` explicitly.
* The allocator instance held by value in each container is modeled by the
  outcomes of its future allocate/reallocate calls (a list of booleans, head
  first; `false` means the call returns null, an exhausted list means every
  later call succeeds).
* The buffer is the owned allocation itself: a list whose length is the number
  of slots the allocator handed out, with `none` marking an uninitialized slot.
* The error callback and its context pointer are identified by numbers
  (0 = the default no-op callback / the null context); every invocation of the
  callback is logged in `errors` as `(callback, error, context)`.
* Reads or writes outside the allocation, dereferencing a past-the-end
  iterator, and a non-terminating loop are undefined behaviour; operations
  that can run into them return `Option` results and model them as `none`
  (loops that the source cannot bound get an explicit fuel argument).
-/

namespace DynArrayModel

/-- The modulus of `size_t` arithmetic (the container is compiled for a
64-bit target). -/
def W : Nat := 2 ^ 64

/-- The error enumeration (`enum class DynArrayError`) of the source. -/
inductive DynArrayError where
  | OK
  | ALLOCATION_FAILURE
  | INDEX_OUT_OF_RANGE
  | INVALID_CAPACITY
deriving DecidableEq, Repr

/-- The allocator instance (`Alloc ator`), modeled by the outcomes of its
future allocate/reallocate calls. -/
abbrev Plan := List Bool

/-- State of one `DynArray<T, Alloc>` object.  Field names follow the source:
`buf` (the allocation), `n` (element count), `nAllocd` (capacity),
`ator` (the allocator instance), `alive`, `errorCb`, `errorCbCtx`.
`errors` is the log of error-callback invocations. The field defaults are the
member initializers of the class. -/
structure DynArray (α : Type) where
  buf : List (Option α) := []
  n : Nat := 0
  nAllocd : Nat := 0
  ator : Plan := []
  alive : Bool := true
  errorCb : Nat := 0
  errorCbCtx : Nat := 0
  errors : List (Nat × DynArrayError × Nat) := []
deriving DecidableEq, Repr

variable {α : Type}

/-- Invoking the installed error callback, `errorCb(e, errorCbCtx)`. -/
def notify (d : DynArray α) (e : DynArrayError) : DynArray α :=
  { d with errors := d.errors ++ [(d.errorCb, e, d.errorCbCtx)] }

/-- Whether the allocator's next call succeeds. -/
def headOk (pl : Plan) : Bool := pl.headD true

/-- Allocation (`ator.allocate(m)`): consume one allocator outcome; on success the fresh
buffer is `m` uninitialized slots, on failure the call returns null (`none`). -/
def allocate (d : DynArray α) (m : Nat) : DynArray α × Option (List (Option α)) :=
  ({ d with ator := d.ator.tail },
   if headOk d.ator then some (List.replicate m none) else none)

/-- Reallocation (`ator.reallocate(old, m)`): consume one allocator outcome; on success the
buffer keeps the first `min m |old|` slots and is extended with uninitialized
slots to exactly `m`; on failure the old buffer is untouched and null is
returned. -/
def reallocate (d : DynArray α) (old : List (Option α)) (m : Nat) :
    DynArray α × Option (List (Option α)) :=
  ({ d with ator := d.ator.tail },
   if headOk d.ator then some (old.take m ++ List.replicate (m - old.length) none) else none)

/-- Reading slot `i` of the buffer: `some v` if the slot is inside the
allocation and initialized, `none` otherwise (out-of-bounds or indeterminate
read). -/
def readSlot (d : DynArray α) (i : Nat) : Option α :=
  if h : i < d.buf.length then d.buf[i] else none

/-- The abstraction relation: container `d` stores exactly the elements of
`xs`, in order, inside its allocation. -/
abbrev Stores (d : DynArray α) (xs : List α) : Prop :=
  d.n = xs.length ∧ d.n ≤ d.buf.length ∧ ∀ i, i < d.n → readSlot d i = xs[i]?

/-- Invariant I2 of the specification: a positive capacity is backed by an
allocation of at least that many slots. -/
abbrev I2 (d : DynArray α) : Prop := 0 < d.nAllocd → d.nAllocd ≤ d.buf.length

/-- The doubling loop of `ensureSize`:
`while (newAllocd < newN) newAllocd *= 2;` in `size_t` arithmetic.
`none` models non-termination (once the product wraps to 0 the loop can never
exit).  Any terminating run of the source loop exits within 64 iterations
(after 64 doublings the value is `0 mod 2^64`), so a fuel of 130 decides the
loop: `none` exactly when the source loop runs forever. -/
def growLoop : Nat → Nat → Nat → Option Nat
  | 0, _, _ => none
  | fuel + 1, a, newN => if a < newN then growLoop fuel (a * 2 % W) newN else some a

/-- The same doubling loop in unbounded arithmetic, used to state what the
terminating runs compute (`growLoop` agrees with it whenever no wrap-around
occurs; see `growLoop_eq_growPure`). -/
def growPure (a newN : Nat) : Nat :=
  if _h : 0 < a ∧ a < newN then growPure (a * 2) newN else a
termination_by newN - a
decreasing_by all_goals omega

/-- Source `DynArray::ensureSize(newN)` (private).  Returns the updated object and the
`int` result; `none` when the doubling loop diverges. -/
def ensureSize (d : DynArray α) (newN : Nat) : Option (DynArray α × Int) :=
  if d.nAllocd > newN then some (d, 0)
  else
    match growLoop 130 (if d.nAllocd = 0 then 8 else d.nAllocd) newN with
    | none => none
    | some newAllocd =>
      match reallocate d d.buf newAllocd with
      | (d1, none) => some (notify d1 .ALLOCATION_FAILURE, -1)
      | (d1, some newBuf) => some ({ d1 with buf := newBuf, nAllocd := newAllocd }, 0)

/-- Source `DynArray::add(elem)`: `if (ensureSize(n + 1)) return -1; buf[n++] = elem;`.
The store `buf[n] = elem` is undefined behaviour (`none`) when slot `n` lies
outside the actual allocation. -/
def add (d : DynArray α) (x : α) : Option (DynArray α × Int) :=
  match ensureSize d (d.n + 1) with
  | none => none
  | some (d1, r) =>
    if r ≠ 0 then some (d1, -1)
    else if _h : d1.n < d1.buf.length then
      some ({ d1 with buf := d1.buf.set d1.n (some x), n := d1.n + 1 }, 0)
    else none

/-- Convenience: a sequence of `add` calls (used to exhibit reachable states). -/
def addAll (d : DynArray α) : List α → Option (DynArray α)
  | [] => some d
  | x :: xs =>
    match add d x with
    | none => none
    | some (d1, r) => if r = 0 then addAll d1 xs else none

/-- The element-copy loop of `constructFrom`:
`for (i = 0; i < n; i++) buf[i] = arr.buf[i];`.  Reading beyond the source
allocation or writing beyond the destination allocation is undefined
behaviour (`none`); copying an uninitialized slot copies the indeterminate
value as-is.  The trailing argument bounds the number of iterations so the
recursion is structural; `n - i + 1` always suffices and the caller passes
`n + 1`, so the bound is never hit. -/
def copyElems (src : List (Option α)) (dst : List (Option α)) (n : Nat) (i : Nat) :
    Nat → Option (List (Option α))
  | 0 => none
  | fuel + 1 =>
    if i < n then
      match src[i]? with
      | none => none
      | some v =>
        if i < dst.length then copyElems src (dst.set i v) n (i + 1) fuel else none
    else some dst

/-- Source `DynArray::constructFrom(arr)` (the body of the copy constructor).  The
object under construction starts from the member initializers; note the source
copies `nAllocd` from `arr` but allocates only `arr.n` slots, and installs
`arr`'s error callback only after a successful allocation (so the failure
notification goes through the still-default callback). -/
def constructFrom (arr : DynArray α) : Option (DynArray α × Int) :=
  let d : DynArray α := { nAllocd := arr.nAllocd, n := arr.n, ator := arr.ator }
  match allocate d d.n with
  | (d1, none) =>
    let d2 := notify d1 .ALLOCATION_FAILURE
    some ({ d2 with alive := false, nAllocd := 0, n := 0 }, -1)
  | (d1, some fresh) =>
    let d2 := { d1 with buf := fresh, errorCb := arr.errorCb, errorCbCtx := arr.errorCbCtx }
    match copyElems arr.buf d2.buf d2.n 0 (d2.n + 1) with
    | none => none
    | some copied => some ({ d2 with buf := copied }, 0)

/-- Source `DynArray::moveFrom(arr)` (the body of the move constructor).  Returns
`(destination, donor after the move)`.  The donor's `n`, `nAllocd` and `buf`
are cleared; its `alive` flag, allocator and callback are left as they were. -/
def moveFrom (arr : DynArray α) : DynArray α × DynArray α :=
  ({ buf := arr.buf, n := arr.n, nAllocd := arr.nAllocd, ator := arr.ator,
     alive := arr.alive, errorCb := arr.errorCb, errorCbCtx := arr.errorCbCtx },
   { arr with n := 0, nAllocd := 0, buf := [] })

/-- Source `DynArray::setCapacity(newCapacity)`. -/
def setCapacity (d : DynArray α) (newCapacity : Nat) : DynArray α × Int :=
  if newCapacity < d.n then (notify d .INVALID_CAPACITY, -1)
  else
    match reallocate d d.buf newCapacity with
    | (d1, none) => (notify d1 .ALLOCATION_FAILURE, -1)
    | (d1, some newBuf) => ({ d1 with buf := newBuf, nAllocd := newCapacity }, 0)

/-- The loop of `binarySearch`: inclusive bounds `left`/`right` over `size_t`,
`mid = (left + right) / 2`, `right = mid - 1` and `left = mid + 1` wrapping
modulo `W`.  `none` models undefined behaviour (a read outside the initialized
part of the allocation) or fuel exhaustion; the comparator `c(elem, buf[mid])`
is `cmp x v`. -/
def bsLoop (cmp : α → α → Int) (d : DynArray α) (x : α) :
    Nat → Nat → Nat → Option Bool
  | 0, _, _ => none
  | fuel + 1, left, right =>
    if left ≤ right then
      let mid := (left + right) % W / 2
      match readSlot d mid with
      | none => none
      | some v =>
        let comparison := cmp x v
        if comparison = 0 then some true
        else if comparison < 0 then bsLoop cmp d x fuel left ((mid + (W - 1)) % W)
        else bsLoop cmp d x fuel ((mid + 1) % W) right
    else some false

/-- Source `DynArray::binarySearch(start, length, elem)` with comparator `cmp`;
`right = start + length - 1` in `size_t` arithmetic. -/
def binarySearch (cmp : α → α → Int) (d : DynArray α) (start length : Nat)
    (x : α) (fuel : Nat) : DynArray α × Option Bool :=
  let left := start
  let right := (start + length + (W - 1)) % W
  if left ≥ d.n ∨ right ≥ d.n then (notify d .INDEX_OUT_OF_RANGE, some false)
  else (d, bsLoop cmp d x fuel left right)

/-- The default comparator the untemplated `binarySearch(elem)` builds from
`==` and `<`. -/
def intCompare (a b : Int) : Int := if a = b then 0 else if a < b then -1 else 1

/-- The untemplated whole-container overload `binarySearch(elem)` for `Int`
elements: `binarySearch<Compare>(0, n, elem)`. -/
def binarySearchInt (d : DynArray Int) (x : Int) (fuel : Nat) : DynArray Int × Option Bool :=
  binarySearch intCompare d 0 d.n x fuel

/-- The loop of `addRange(start, end)`:
`for (current = start; start != end; ++current) if (add(*current)) return -1;`.
The iterator range is modeled as the list `xs` it denotes, with `start` at
index 0 and `end` at index `xs.length`; the loop condition compares the
never-advanced `start` with `end` while `current` is the index that moves.
Dereferencing `current` past the end of the range is undefined behaviour
(`none`), as is running out of fuel (the source loop has no bound of its
own). -/
def addRangeLoop (d : DynArray α) (xs : List α) (current : Nat) :
    Nat → Option (DynArray α × Int)
  | 0 => none
  | fuel + 1 =>
    if 0 ≠ xs.length then
      match xs[current]? with
      | none => none
      | some x =>
        match add d x with
        | none => none
        | some (d1, r) => if r ≠ 0 then some (d1, -1) else addRangeLoop d1 xs (current + 1) fuel
    else some (d, 0)

/-- Source `DynArray::addRange(start, end)` over the range denoted by `xs`. -/
def addRange (d : DynArray α) (xs : List α) (fuel : Nat) : Option (DynArray α × Int) :=
  addRangeLoop d xs 0 fuel

/-- The scan of `DynArray::exists(p)` from index `i`
(`exists` is a reserved word in Lean, hence the `P` suffix on the wrapper).
The trailing argument bounds the iterations (the wrapper passes `n + 1`,
which always suffices, so the `none`-on-exhaustion case is never hit). -/
def existsLoop (d : DynArray α) (p : α → Bool) (i : Nat) : Nat → Option Bool
  | 0 => none
  | fuel + 1 =>
    if i < d.n then
      match readSlot d i with
      | none => none
      | some v => if p v then some true else existsLoop d p (i + 1) fuel
    else some false

/-- Source `DynArray::exists(p)`. -/
def existsP (d : DynArray α) (p : α → Bool) : Option Bool := existsLoop d p 0 (d.n + 1)

/-- The scan of `DynArray::find(p)` from index `i`.  The returned pointer
`&buf[i]` is modeled by the index `i` (`some i`); the null pointer by the
inner `none`.  The trailing argument bounds the iterations (the wrapper
passes `n + 1`, which always suffices). -/
def findLoop (d : DynArray α) (p : α → Bool) (i : Nat) : Nat → Option (Option Nat)
  | 0 => none
  | fuel + 1 =>
    if i < d.n then
      match readSlot d i with
      | none => none
      | some v => if p v then some (some i) else findLoop d p (i + 1) fuel
    else some none

/-- Source `DynArray::find(p)`. -/
def find (d : DynArray α) (p : α → Bool) : Option (Option Nat) := findLoop d p 0 (d.n + 1)

/-- The scan of `findIndex(start, count, p)` over `[i, e)`.  The trailing
argument bounds the iterations (the caller passes `e + 1`, which always
suffices). -/
def findIndexLoop (d : DynArray α) (p : α → Bool) (e : Nat) (i : Nat) : Nat → Option Int
  | 0 => none
  | fuel + 1 =>
    if i < e then
      match readSlot d i with
      | none => none
      | some v => if p v then some (Int.ofNat i) else findIndexLoop d p e (i + 1) fuel
    else some (-1)

/-- Source `DynArray::findIndex(start, count, p)` (explicit-range overload);
`end = start + count` in `size_t` arithmetic. -/
def findIndexRange (d : DynArray α) (start count : Nat) (p : α → Bool) :
    DynArray α × Option Int :=
  let e := (start + count) % W
  if start ≥ d.n ∨ e > d.n then (notify d .INDEX_OUT_OF_RANGE, some (-1))
  else (d, findIndexLoop d p e start (e + 1))

/-- Source `DynArray::findIndex(p)` (whole-container overload):
`if (n == 0) return -1; return findIndex(0, n, p);`. -/
def findIndexWhole (d : DynArray α) (p : α → Bool) : DynArray α × Option Int :=
  if d.n = 0 then (d, some (-1)) else findIndexRange d 0 d.n p

/-- The loop of `findAll(p)`: scan the source, `add` every match to the result
array, and return a default-constructed empty array as soon as an `add`
fails.  The trailing argument bounds the iterations (the caller passes
`n + 1`, which always suffices). -/
def findAllLoop (d : DynArray α) (p : α → Bool) (i : Nat) (array : DynArray α) :
    Nat → Option (DynArray α)
  | 0 => none
  | fuel + 1 =>
    if i < d.n then
      match readSlot d i with
      | none => none
      | some v =>
        if p v then
          match add array v with
          | none => none
          | some (a1, r) =>
            if r ≠ 0 then some ({} : DynArray α) else findAllLoop d p (i + 1) a1 fuel
        else findAllLoop d p (i + 1) array fuel
    else some array

/-- Source `DynArray::findAll(p, alloc)`: the result array is constructed on the
supplied allocator instance and the source's error *callback* is installed on
it (`array.errorCb = errorCb;` — the context pointer is not copied). -/
def findAll (d : DynArray α) (p : α → Bool) (alloc : Plan) : Option (DynArray α) :=
  let array : DynArray α := { ator := alloc }
  let array := { array with errorCb := d.errorCb }
  findAllLoop d p 0 array (d.n + 1)

/-- Index of the first element of a list satisfying `p` (the reference
function the linear searches are compared against). -/
def firstIdx (p : α → Bool) : List α → Option Nat
  | [] => none
  | x :: xs => if p x then some 0 else (firstIdx p xs).map (· + 1)

/-- The container holding `[1, 2, 3]` in a tightly sized allocation
(reachable: three `add`s followed by `setCapacity(3)`; see the theorems). -/
def dC1 : DynArray Int :=
  { buf := [some 1, some 2, some 3], n := 3, nAllocd := 3 }

/-- The state after three successful `add`s on a default-constructed
container: capacity 8, count 3. -/
def dAdd3 : DynArray Int :=
  { buf := [some 1, some 2, some 3, none, none, none, none, none], n := 3, nAllocd := 8 }

/-- A container that consumed one allocator success and whose allocator will
fail the next call: the state after seven `add`s on a fresh container whose
allocator plan is `[true, false]`. -/
def dSeven : DynArray Int :=
  { buf := [some 1, some 2, some 3, some 4, some 5, some 6, some 7, none],
    n := 7, nAllocd := 8, ator := [false] }

/-- The state `setCapacity(1)` on a fresh container produces: one allocated
slot, capacity 1, count 0. -/
def dCap1 : DynArray Int := { buf := [none], n := 0, nAllocd := 1 }

/-- What `constructFrom dAdd3` builds: the element values in a 3-slot
allocation, but with the source's capacity 8 recorded. -/
def dCopy : DynArray Int :=
  { buf := [some 1, some 2, some 3], n := 3, nAllocd := 8 }

/-- The zombie a failed copy-construction leaves behind
(`constructFrom` with a failing allocator; see the theorems). -/
def zombie : DynArray Int :=
  { alive := false, errors := [(0, DynArrayError.ALLOCATION_FAILURE, 0)] }

/-- A source container for `findAll` with a non-default observer installed:
callback 7, context 9. -/
def dObs : DynArray Int :=
  { buf := [some 1], n := 1, nAllocd := 1, errorCb := 7, errorCbCtx := 9 }


/-! ## General lemmas -/

/-- Reading a slot is `getElem?` followed by collapsing the uninitialized
marker. -/
theorem readSlot_eq (d : DynArray α) (i : Nat) : readSlot d i = (d.buf[i]?).join := by
  unfold readSlot
  split
  · next h => rw [List.getElem?_eq_getElem h]; rfl
  · next h => rw [List.getElem?_eq_none (by omega)]; rfl


/-- Unfolding equation of `growPure` with a plain conditional. -/
theorem growPure_eq (a newN : Nat) :
    growPure a newN = if 0 < a ∧ a < newN then growPure (a * 2) newN else a := by
  rw [growPure]
  split
  · rfl
  · rfl

/-- The doubling loop reaches at least the requested size. -/
theorem growPure_ge (a newN : Nat) (ha : 0 < a) : newN ≤ growPure a newN := by
  have aux : ∀ (k a2 : Nat), newN - a2 ≤ k → 0 < a2 → newN ≤ growPure a2 newN := by
    intro k
    induction k with
    | zero =>
      intro a2 hk ha2
      rw [growPure_eq, if_neg (by omega)]
      omega
    | succ k ih =>
      intro a2 hk ha2
      by_cases h : a2 < newN
      · rw [growPure_eq, if_pos ⟨ha2, h⟩]
        exact ih (a2 * 2) (by omega) (by omega)
      · rw [growPure_eq, if_neg (by omega)]
        omega
  exact aux (newN - a) a (Nat.le_refl _) ha

/-- The doubling loop only ever doubles: the result is the start times a
power of two. -/
theorem growPure_pow (a newN : Nat) : ∃ m, growPure a newN = a * 2 ^ m := by
  have aux : ∀ (k a2 : Nat), newN - a2 ≤ k → ∃ m, growPure a2 newN = a2 * 2 ^ m := by
    intro k
    induction k with
    | zero =>
      intro a2 hk
      rw [growPure_eq, if_neg (by omega)]
      exact ⟨0, by ring⟩
    | succ k ih =>
      intro a2 hk
      by_cases h : 0 < a2 ∧ a2 < newN
      · rw [growPure_eq, if_pos h]
        obtain ⟨m, hm⟩ := ih (a2 * 2) (by omega)
        exact ⟨m + 1, by rw [hm]; ring⟩
      · rw [growPure_eq, if_neg h]
        exact ⟨0, by ring⟩
  exact aux (newN - a) a (Nat.le_refl _)

/-- Minimality of the doubling loop: the result is either the starting value
or would be below the requested size if halved. -/
theorem growPure_min (a newN : Nat) :
    growPure a newN = a ∨ growPure a newN / 2 < newN := by
  have aux : ∀ (k a2 : Nat), newN - a2 ≤ k →
      growPure a2 newN = a2 ∨ growPure a2 newN / 2 < newN := by
    intro k
    induction k with
    | zero =>
      intro a2 hk
      exact Or.inl (by rw [growPure_eq, if_neg (by omega)])
    | succ k ih =>
      intro a2 hk
      by_cases h : 0 < a2 ∧ a2 < newN
      · rw [growPure_eq, if_pos h]
        rcases ih (a2 * 2) (by omega) with heq | hlt
        · rw [heq]
          exact Or.inr (by omega)
        · exact Or.inr hlt
      · exact Or.inl (by rw [growPure_eq, if_neg h])
  exact aux (newN - a) a (Nat.le_refl _)

/-- Upper bound on the doubling loop: it overshoots the requested size by at
most a factor of two (unless it never ran). -/
theorem growPure_le (a newN : Nat) (ha : 0 < a) :
    growPure a newN ≤ max a (2 * newN) := by
  have aux : ∀ (k a2 : Nat), newN - a2 ≤ k → 0 < a2 →
      growPure a2 newN ≤ max a2 (2 * newN) := by
    intro k
    induction k with
    | zero =>
      intro a2 hk ha2
      rw [growPure_eq, if_neg (by omega)]
      omega
    | succ k ih =>
      intro a2 hk ha2
      by_cases h : a2 < newN
      · rw [growPure_eq, if_pos ⟨ha2, h⟩]
        have := ih (a2 * 2) (by omega) (by omega)
        omega
      · rw [growPure_eq, if_neg (by omega)]
        omega
  exact aux (newN - a) a (Nat.le_refl _) ha

/-- As long as no `size_t` overflow can occur, the fueled loop computes
`growPure`. -/
theorem growLoop_eq_growPure : ∀ (fuel a newN : Nat), 0 < a → newN ≤ 2 ^ 62 →
    newN ≤ a * 2 ^ fuel → growLoop (fuel + 1) a newN = some (growPure a newN) := by
  intro fuel
  induction fuel with
  | zero =>
    intro a newN ha hW h
    have h1 : newN ≤ a := by simpa using h
    show (if a < newN then growLoop 0 (a * 2 % W) newN else some a) = _
    rw [if_neg (by omega), growPure_eq, if_neg (by omega)]
  | succ fuel ih =>
    intro a newN ha hW h
    show (if a < newN then growLoop (fuel + 1) (a * 2 % W) newN else some a) = _
    by_cases hlt : a < newN
    · have hmod : a * 2 % W = a * 2 := by
        apply Nat.mod_eq_of_lt
        have h62 : a < 2 ^ 62 := by omega
        have : a * 2 < 2 ^ 62 * 2 := by omega
        unfold W
        omega
      have hpow : a * 2 ^ (fuel + 1) = a * 2 * 2 ^ fuel := by ring
      have hstep : growPure a newN = growPure (a * 2) newN := by
        rw [growPure_eq, if_pos ⟨ha, hlt⟩]
      rw [if_pos hlt, hmod, hstep]
      exact ih (a * 2) newN (by omega) hW (hpow ▸ h)
    · rw [if_neg hlt, growPure_eq, if_neg (by omega)]

/-- Below the fast-path threshold, `ensureSize` reallocates to
`growPure start newN` (where `start` is the capacity, or 8 when the capacity
is 0) and on a failing allocator notifies ALLOCATION_FAILURE and leaves the
container untouched. -/
theorem ensureSize_eq_of_le (d : DynArray α) (newN : Nat) (h : d.nAllocd ≤ newN)
    (hn : newN ≤ 2 ^ 62) :
    ensureSize d newN =
      if headOk d.ator
      then some
        ({ d with
            ator := d.ator.tail,
            buf := d.buf.take (growPure (if d.nAllocd = 0 then 8 else d.nAllocd) newN) ++
              List.replicate
                (growPure (if d.nAllocd = 0 then 8 else d.nAllocd) newN - d.buf.length) none,
            nAllocd := growPure (if d.nAllocd = 0 then 8 else d.nAllocd) newN }, 0)
      else some
        ({ d with
            ator := d.ator.tail,
            errors := d.errors ++
              [(d.errorCb, DynArrayError.ALLOCATION_FAILURE, d.errorCbCtx)] }, -1) := by
  have hstart : 0 < (if d.nAllocd = 0 then 8 else d.nAllocd) := by
    split
    · omega
    · next hne => omega
  have hg : growLoop 130 (if d.nAllocd = 0 then 8 else d.nAllocd) newN =
      some (growPure (if d.nAllocd = 0 then 8 else d.nAllocd) newN) := by
    apply growLoop_eq_growPure 129 _ newN hstart hn
    calc newN ≤ 2 ^ 62 := hn
      _ ≤ 2 ^ 129 := Nat.pow_le_pow_right (by omega) (by omega)
      _ = 1 * 2 ^ 129 := by ring
      _ ≤ (if d.nAllocd = 0 then 8 else d.nAllocd) * 2 ^ 129 :=
          Nat.mul_le_mul_right _ hstart
  unfold ensureSize
  rw [if_neg (by omega), hg]
  unfold reallocate
  dsimp only
  by_cases hok : headOk d.ator
  · rw [if_pos hok, if_pos hok]
  · rw [if_neg hok, if_neg hok]
    rfl

/-! ## The claims -/

/-- C1: the claim says that on a range sorted ascending under the comparator,
`binarySearch(x)` returns true iff `x` is present, with the loop keeping
inclusive `size_t` bounds and stopping once `left > right`.  The code violates
this: on the sorted container `[1, 2, 3]` (reachable by three `add`s and a
`setCapacity(3)`), searching for the absent element 0 drives `right` through
`mid - 1` at `mid = 0`, which wraps to `2 ^ 64 - 1`, so `left > right` never
holds and the next iteration reads `buf[2 ^ 63 - 1]`, far outside the
allocation — undefined behaviour (`none`) instead of the claimed `false`. -/
theorem binarySearch_smaller_elem_underflow_ub :
    (intCompare 1 2 < 0 ∧ intCompare 2 3 < 0 ∧ intCompare 1 3 < 0) ∧
    (0 : Int) ∉ [(1 : Int), 2, 3] ∧
    addAll ({} : DynArray Int) [1, 2, 3] = some dAdd3 ∧
    setCapacity dAdd3 3 = (dC1, 0) ∧
    Stores dC1 [1, 2, 3] ∧
    (binarySearchInt dC1 1 100).2 = some true ∧
    (binarySearchInt dC1 2 100).2 = some true ∧
    (binarySearchInt dC1 3 100).2 = some true ∧
    (binarySearchInt dC1 4 100).2 = some false ∧
    binarySearchInt dC1 0 100 = (dC1, none) := by
  decide

/-- C3: the claim says `addRange(begin, end)` appends every element and
returns zero, terminating on every finite input.  The code's loop condition
compares the never-advanced `start` iterator with `end` (`start != end`) while
only `current` moves, so on any non-empty range the loop can never exit with
success: whatever happens, the result is undefined behaviour (the `current`
iterator is dereferenced past the end, or the loop never terminates) or an
`add` failure — never a normal return of 0.  Concretely, appending the
one-element range `[5]` to an empty container with a never-failing allocator
walks `current` past the end. -/
theorem addRange_nonempty_never_succeeds :
    (∀ (α : Type) (d : DynArray α) (x : α) (xs : List α) (current fuel : Nat),
      addRangeLoop d (x :: xs) current fuel = none ∨
      ∃ d1, addRangeLoop d (x :: xs) current fuel = some (d1, -1)) ∧
    addRange ({} : DynArray Int) [5] 100 = none ∧
    addRange ({} : DynArray Int) ([] : List Int) 100 = some ({}, 0) := by
  refine ⟨?_, by decide, by decide⟩
  intro α d x xs current fuel
  induction fuel generalizing d current with
  | zero => exact Or.inl rfl
  | succ fuel ih =>
    rw [addRangeLoop, if_pos (by simp)]
    cases hcur : (x :: xs)[current]? with
    | none => exact Or.inl rfl
    | some y =>
      dsimp only
      cases hadd : add d y with
      | none => exact Or.inl rfl
      | some p =>
        obtain ⟨d1, r⟩ := p
        dsimp only
        by_cases hr : r ≠ 0
        · exact Or.inr ⟨d1, by rw [if_pos hr]⟩
        · rw [if_neg hr]
          exact ih d1 (current + 1)

/-- C4: the claim states invariant I2 — a positive capacity is backed by an
allocation of at least `capacity` slots — and in particular that the buffer a
copy-construction allocates (sized `C.count`) suffices for the new container's
capacity.  The code violates this: `constructFrom` copies the source's
`nAllocd` (8 for the reachable state after three `add`s) but allocates only
`n = 3` slots, so the copy reports capacity 8 over a 3-slot allocation and the
very next `add` takes the no-reallocation fast path and writes out of bounds
(undefined behaviour, `none`). -/
theorem copy_construct_violates_I2 :
    addAll ({} : DynArray Int) [1, 2, 3] = some dAdd3 ∧ I2 dAdd3 ∧
    constructFrom dAdd3 = some (dCopy, 0) ∧
    dCopy.nAllocd = 8 ∧ dCopy.buf.length = 3 ∧ ¬ I2 dCopy ∧
    add dCopy 9 = none := by
  decide


/-- C5 (counterexample): the claim says ZOMBIE is absorbing — a mutating
operation on a zombie acquires no buffer and capacity stays 0.  But neither
`add` nor `ensureSize` consults the `alive` flag: on the reachable zombie left
behind by a copy-construction whose allocation failed, a subsequent `add`
with a now-succeeding allocator allocates 8 slots and stores the element, so
the capacity does not stay 0. -/
theorem zombie_not_absorbing_cex :
    constructFrom ({ ator := [false] } : DynArray Int) = some (zombie, -1) ∧
    zombie.alive = false ∧ zombie.n = 0 ∧ zombie.nAllocd = 0 ∧ zombie.buf = [] ∧
    (add zombie 5).map (fun p => (p.1.nAllocd, p.1.n, p.1.alive, p.2)) =
      some (8, 1, false, 0) ∧
    ¬ (add zombie 5).map (fun p => p.1.nAllocd) = some 0 := by
  decide

/-- C5 (amended): mutating operations do not check the liveness flag, so
ZOMBIE is not absorbing.  `add` on any zombie-state container (alive = false,
count = capacity = 0, no buffer) whose allocator now succeeds behaves exactly
as on an alive empty container: it allocates 8 slots, stores the element,
and leaves count = 1, capacity = 8, with `alive` still false.  (Reads before
such a mutation do return the empty projection, count = capacity = 0, since
that is the stored state.) -/
theorem zombie_add_resurrects (d : DynArray α) (x : α)
    (hz : d.alive = false) (hn : d.n = 0) (hc : d.nAllocd = 0) (hb : d.buf = [])
    (hA : headOk d.ator = true) :
    add d x =
      some ({ buf := (List.replicate 8 (none : Option α)).set 0 (some x), n := 1,
              nAllocd := 8, ator := d.ator.tail, alive := false,
              errorCb := d.errorCb, errorCbCtx := d.errorCbCtx, errors := d.errors }, 0) := by
  obtain ⟨buf, n, nA, ator, alive, cb, ctx, errs⟩ := d
  dsimp only at hz hn hc hb hA ⊢
  subst hz hn hc hb
  rcases ator with _ | ⟨b, t⟩
  · exact rfl
  · cases b
    · exact absurd hA (by simp [headOk])
    · exact rfl

/-- Closed witness for `zombie_add_resurrects` at the concrete reachable
zombie and element 5: the zombie acquires an 8-slot buffer holding the
element. -/
theorem zombie_add_resurrects_witness :
    add zombie (5 : Int) =
      some ({ buf := (List.replicate 8 (none : Option Int)).set 0 (some 5), n := 1,
              nAllocd := 8, ator := zombie.ator.tail, alive := false,
              errorCb := zombie.errorCb, errorCbCtx := zombie.errorCbCtx,
              errors := zombie.errors }, 0) :=
  zombie_add_resurrects zombie 5 rfl rfl rfl rfl rfl

/-- C7: on an empty container the whole-container `findIndex(p)` returns -1
without invoking the error observer (the container, with its log, is
unchanged), while the explicit-range `findIndex(0, 0, p)` returns -1 and
notifies INDEX_OUT_OF_RANGE exactly once, because `start = 0 >= n = 0` fails
the range precondition. -/
theorem findIndex_empty_contrast (d : DynArray α) (p : α → Bool) (h : d.n = 0) :
    findIndexWhole d p = (d, some (-1)) ∧
    findIndexRange d 0 0 p =
      ({ d with errors := d.errors ++ [(d.errorCb, DynArrayError.INDEX_OUT_OF_RANGE, d.errorCbCtx)] },
       some (-1)) := by
  constructor
  · simp [findIndexWhole, h]
  · simp [findIndexRange, notify, h]

/-- Closed witness for `findIndex_empty_contrast` on a default-constructed
empty container and an always-true predicate. -/
theorem findIndex_empty_contrast_witness :
    findIndexWhole ({} : DynArray Int) (fun _ => true) = ({}, some (-1)) ∧
    findIndexRange ({} : DynArray Int) 0 0 (fun _ => true) =
      ({ ({} : DynArray Int) with
         errors := ({} : DynArray Int).errors ++
           [(({} : DynArray Int).errorCb, DynArrayError.INDEX_OUT_OF_RANGE,
             ({} : DynArray Int).errorCbCtx)] },
       some (-1)) :=
  findIndex_empty_contrast ({} : DynArray Int) (fun _ => true) rfl

/-- C8 (counterexample): the claim says the donor of a move ends ALIVE-EMPTY
with `alive = true` for every container, in any state.  But `moveFrom` never
touches the donor's `alive` flag: moving from the reachable zombie leaves the
donor with `alive = false`. -/
theorem moveFrom_zombie_donor_cex :
    constructFrom ({ ator := [false] } : DynArray Int) = some (zombie, -1) ∧
    (moveFrom zombie).2.n = 0 ∧ (moveFrom zombie).2.nAllocd = 0 ∧
    (moveFrom zombie).2.buf = [] ∧
    ¬ (moveFrom zombie).2.alive = true := by
  decide

/-- C8 (amended): after a move the donor has count 0, capacity 0 and no
buffer, but its liveness flag is simply left unchanged — so the donor ends
ALIVE-EMPTY exactly when it was alive before the move (the destination takes
over the donor's buffer, count, capacity and liveness). -/
theorem moveFrom_donor_state (arr : DynArray α) :
    (moveFrom arr).2.n = 0 ∧ (moveFrom arr).2.nAllocd = 0 ∧
    (moveFrom arr).2.buf = [] ∧ (moveFrom arr).2.alive = arr.alive ∧
    (moveFrom arr).1.buf = arr.buf ∧ (moveFrom arr).1.n = arr.n ∧
    (moveFrom arr).1.nAllocd = arr.nAllocd ∧ (moveFrom arr).1.alive = arr.alive := by
  refine ⟨rfl, rfl, rfl, rfl, rfl, rfl, rfl, rfl⟩


/-- C2 (counterexample): the claim says `ensureSize(newN)` succeeds
immediately without reallocating whenever capacity >= newN, and otherwise
doubles starting from max(capacity, 8).  Both parts fail on the code, which
tests `nAllocd > newN` (strictly) and starts from `nAllocd` whenever it is
non-zero: (a) on the reachable state after seven `add`s with capacity 8, the
eighth `add` calls `ensureSize(8)` with capacity = newN = 8 and still
reallocates, so a failing allocator makes it fail with ALLOCATION_FAILURE
instead of succeeding in place; (b) from the reachable state with capacity 1
(via `setCapacity(1)`), `ensureSize(2)` grows to capacity 2, not to
max(1, 8) = 8. -/
theorem ensureSize_claim_cex :
    addAll ({ ator := [true, false] } : DynArray Int) [1, 2, 3, 4, 5, 6, 7] = some dSeven ∧
    dSeven.n + 1 ≤ dSeven.nAllocd ∧
    add dSeven 8 =
      some ({ dSeven with
                ator := [],
                errors := [(0, DynArrayError.ALLOCATION_FAILURE, 0)] }, -1) ∧
    setCapacity ({} : DynArray Int) 1 = (dCap1, 0) ∧
    (ensureSize dCap1 2).map (fun p => (p.1.nAllocd, p.2)) = some (2, 0) ∧
    ¬ (ensureSize dCap1 2).map (fun p => p.1.nAllocd) = some 8 := by
  decide

/-- C2 (amended): `ensureSize(newN)` succeeds immediately without touching the
allocator only when capacity > newN strictly (capacity = newN still
reallocates).  Otherwise the new capacity is obtained by starting from the
current capacity — 8 only when the capacity is 0, not max(capacity, 8) — and
doubling while below newN; the buffer is reallocated to exactly that many
slots (count, elements and error log unchanged), and on allocation failure
ALLOCATION_FAILURE is notified once and count, capacity and buffer are left
unchanged.  (Stated for `newN ≤ 2^62`; for astronomically larger requests the
source's doubling loop overflows `size_t` and never terminates.) -/
theorem ensureSize_growth_policy (d : DynArray α) (newN : Nat) (hn : newN ≤ 2 ^ 62) :
    (newN < d.nAllocd → ensureSize d newN = some (d, 0)) ∧
    (d.nAllocd ≤ newN →
      ∃ c, newN ≤ c ∧
        (∃ m, c = (if d.nAllocd = 0 then 8 else d.nAllocd) * 2 ^ m) ∧
        (c = (if d.nAllocd = 0 then 8 else d.nAllocd) ∨ c / 2 < newN) ∧
        (d.buf.take c ++ List.replicate (c - d.buf.length) none).length = c ∧
        (headOk d.ator = true →
          ensureSize d newN =
            some ({ d with
                      ator := d.ator.tail,
                      buf := d.buf.take c ++ List.replicate (c - d.buf.length) none,
                      nAllocd := c }, 0)) ∧
        (headOk d.ator = false →
          ensureSize d newN =
            some ({ d with
                      ator := d.ator.tail,
                      errors := d.errors ++
                        [(d.errorCb, DynArrayError.ALLOCATION_FAILURE, d.errorCbCtx)] }, -1))) := by
  constructor
  · intro hfast
    unfold ensureSize
    rw [if_pos (by omega)]
  · intro hslow
    have hstart : 0 < (if d.nAllocd = 0 then 8 else d.nAllocd) := by
      split
      · omega
      · next hne => omega
    refine ⟨growPure (if d.nAllocd = 0 then 8 else d.nAllocd) newN,
      growPure_ge _ _ hstart, growPure_pow _ _, growPure_min _ _, ?_, ?_, ?_⟩
    · simp
      omega
    · intro hok
      rw [ensureSize_eq_of_le d newN hslow hn, if_pos hok]
    · intro hok
      rw [ensureSize_eq_of_le d newN hslow hn, if_neg (by simp [hok])]

/-- Closed witness for `ensureSize_growth_policy`: instantiated at the
reachable capacity-1 container and request 2 (slow path, succeeding
allocator), exhibiting the growth to capacity 2. -/
theorem ensureSize_growth_policy_witness :
    ∃ c, 2 ≤ c ∧
      (∃ m, c = (if dCap1.nAllocd = 0 then 8 else dCap1.nAllocd) * 2 ^ m) ∧
      (c = (if dCap1.nAllocd = 0 then 8 else dCap1.nAllocd) ∨ c / 2 < 2) ∧
      (dCap1.buf.take c ++ List.replicate (c - dCap1.buf.length) none).length = c ∧
      (headOk dCap1.ator = true →
        ensureSize dCap1 2 =
          some ({ dCap1 with
                    ator := dCap1.ator.tail,
                    buf := dCap1.buf.take c ++ List.replicate (c - dCap1.buf.length) none,
                    nAllocd := c }, 0)) ∧
      (headOk dCap1.ator = false →
        ensureSize dCap1 2 =
          some ({ dCap1 with
                    ator := dCap1.ator.tail,
                    errors := dCap1.errors ++
                      [(dCap1.errorCb, DynArrayError.ALLOCATION_FAILURE, dCap1.errorCbCtx)] }, -1)) :=
  (ensureSize_growth_policy dCap1 2 (by norm_num)).2 (by decide)


/-- C6: `setCapacity(k)` with k >= count reallocates to exactly k slots,
preserving count and the stored element values; with k < count it fails,
notifies INVALID_CAPACITY exactly once (one new log entry), and leaves count,
capacity, buffer and elements untouched; if the reallocation fails it
notifies ALLOCATION_FAILURE once and leaves count, capacity and buffer
untouched. -/
theorem setCapacity_contract (d : DynArray α) (xs : List α) (k : Nat)
    (hS : Stores d xs) :
    (k < d.n →
      setCapacity d k =
        ({ d with
            errors := d.errors ++
              [(d.errorCb, DynArrayError.INVALID_CAPACITY, d.errorCbCtx)] }, -1)) ∧
    (d.n ≤ k → headOk d.ator = true →
      setCapacity d k =
        ({ d with
            ator := d.ator.tail,
            buf := d.buf.take k ++ List.replicate (k - d.buf.length) none,
            nAllocd := k }, 0) ∧
      (d.buf.take k ++ List.replicate (k - d.buf.length) none).length = k ∧
      Stores
        { d with
            ator := d.ator.tail,
            buf := d.buf.take k ++ List.replicate (k - d.buf.length) none,
            nAllocd := k } xs) ∧
    (d.n ≤ k → headOk d.ator = false →
      setCapacity d k =
        ({ d with
            ator := d.ator.tail,
            errors := d.errors ++
              [(d.errorCb, DynArrayError.ALLOCATION_FAILURE, d.errorCbCtx)] }, -1)) := by
  obtain ⟨hlen, hle, hread⟩ := hS
  refine ⟨?_, ?_, ?_⟩
  · intro hk
    unfold setCapacity
    rw [if_pos hk]
    rfl
  · intro hk hok
    have heq : setCapacity d k =
        ({ d with
            ator := d.ator.tail,
            buf := d.buf.take k ++ List.replicate (k - d.buf.length) none,
            nAllocd := k }, 0) := by
      unfold setCapacity reallocate
      rw [if_neg (by omega)]
      rw [if_pos hok]
    have hL : (d.buf.take k ++ List.replicate (k - d.buf.length) none).length = k := by
      simp
      omega
    refine ⟨heq, hL, hlen, ?_, ?_⟩
    · show d.n ≤ (d.buf.take k ++ List.replicate (k - d.buf.length) none).length
      omega
    · intro i hi
      have hi2 : i < d.n := hi
      rw [readSlot_eq]
      show ((d.buf.take k ++ List.replicate (k - d.buf.length) none)[i]?).join = xs[i]?
      rw [List.getElem?_append_left (by simp; omega), List.getElem?_take_of_lt (by omega)]
      rw [← readSlot_eq d i]
      exact hread i hi2
  · intro hk hok
    unfold setCapacity reallocate
    rw [if_neg (by omega)]
    rw [if_neg (by simp [hok])]
    rfl

/-- Closed witness for `setCapacity_contract` on the container `[1, 2, 3]`:
`setCapacity(1)` fails with INVALID_CAPACITY and leaves the container
unchanged, `setCapacity(10)` succeeds with capacity exactly 10. -/
theorem setCapacity_contract_witness :
    (setCapacity dC1 1 =
      ({ dC1 with
          errors := dC1.errors ++
            [(dC1.errorCb, DynArrayError.INVALID_CAPACITY, dC1.errorCbCtx)] }, -1)) ∧
    (setCapacity dC1 10 =
      ({ dC1 with
          ator := dC1.ator.tail,
          buf := dC1.buf.take 10 ++ List.replicate (10 - dC1.buf.length) none,
          nAllocd := 10 }, 0)) :=
  ⟨(setCapacity_contract dC1 [1, 2, 3] 1 (by decide)).1 (by decide),
   (((setCapacity_contract dC1 [1, 2, 3] 10 (by decide)).2.1 (by decide) rfl).1)⟩


/-- Lemma: `add` on a well-formed container whose allocator never fails: the element
lands in slot `count`, the count grows by one, earlier slots are untouched,
and the buffer stays exactly as large as the recorded capacity (the shape
`findAll` iterates over). -/
theorem add_ok (a : DynArray α) (x : α) (hator : a.ator = [])
    (halen : a.buf.length = a.nAllocd) (hn : a.n ≤ a.nAllocd)
    (hbound : a.nAllocd ≤ max 8 (2 * a.n)) (hsize : a.n + 1 ≤ 2 ^ 62) :
    ∃ a2, add a x = some (a2, 0) ∧
      a2.n = a.n + 1 ∧ a2.buf.length = a2.nAllocd ∧ a2.n ≤ a2.nAllocd ∧
      a2.nAllocd ≤ max 8 (2 * a2.n) ∧ a2.ator = [] ∧
      a2.alive = a.alive ∧ a2.errorCb = a.errorCb ∧ a2.errorCbCtx = a.errorCbCtx ∧
      a2.errors = a.errors ∧
      (∀ i, i < a.n → readSlot a2 i = readSlot a i) ∧ readSlot a2 a.n = some x := by
  by_cases hfast : a.n + 1 < a.nAllocd
  · have hes : ensureSize a (a.n + 1) = some (a, 0) := by
      unfold ensureSize
      rw [if_pos (by omega)]
    have hadd : add a x =
        some ({ a with buf := a.buf.set a.n (some x), n := a.n + 1 }, 0) := by
      unfold add
      rw [hes]
      dsimp only
      rw [if_neg (by simp), dif_pos (by omega)]
    refine ⟨_, hadd, rfl, by simp [halen], by show a.n + 1 ≤ a.nAllocd; omega, ?_,
      hator, rfl, rfl, rfl, rfl, ?_, ?_⟩
    · show a.nAllocd ≤ max 8 (2 * (a.n + 1))
      omega
    · intro i hi
      rw [readSlot_eq, readSlot_eq]
      show ((a.buf.set a.n (some x))[i]?).join = (a.buf[i]?).join
      rw [List.getElem?_set_ne (by omega)]
    · rw [readSlot_eq]
      show ((a.buf.set a.n (some x))[a.n]?).join = some x
      rw [List.getElem?_set_self (by omega)]
      rfl
  · have hok : headOk a.ator = true := by rw [hator]; rfl
    have hgrow := ensureSize_eq_of_le a (a.n + 1) (by omega) (by omega)
    rw [if_pos hok] at hgrow
    set c := growPure (if a.nAllocd = 0 then 8 else a.nAllocd) (a.n + 1) with hcdef
    have hstartpos : 0 < (if a.nAllocd = 0 then 8 else a.nAllocd) := by
      split <;> omega
    have hcge : a.n + 1 ≤ c := growPure_ge _ _ hstartpos
    have hcle : c ≤ max (if a.nAllocd = 0 then 8 else a.nAllocd) (2 * (a.n + 1)) :=
      growPure_le _ _ hstartpos
    have htake : a.buf.take c = a.buf := List.take_of_length_le (by omega)
    have hBlen : (a.buf.take c ++ List.replicate (c - a.buf.length) none).length = c := by
      simp
      omega
    have hadd : add a x =
        some ({ a with
                  ator := a.ator.tail,
                  buf := (a.buf.take c ++ List.replicate (c - a.buf.length) none).set
                    a.n (some x),
                  nAllocd := c, n := a.n + 1 }, 0) := by
      unfold add
      rw [hgrow]
      dsimp only
      rw [if_neg (by simp), dif_pos (by rw [hBlen]; omega)]
    refine ⟨_, hadd, rfl, by simp [hBlen], by show a.n + 1 ≤ c; omega, ?_,
      by rw [hator]; rfl, rfl, rfl, rfl, rfl, ?_, ?_⟩
    · show c ≤ max 8 (2 * (a.n + 1))
      by_cases h0 : a.nAllocd = 0
      · rw [if_pos h0] at hcle
        omega
      · rw [if_neg h0] at hcle
        omega
    · intro i hi
      rw [readSlot_eq, readSlot_eq]
      show ((( a.buf.take c ++ List.replicate (c - a.buf.length) none).set
        a.n (some x))[i]?).join = (a.buf[i]?).join
      rw [List.getElem?_set_ne (by omega), htake,
        List.getElem?_append_left (by omega)]
    · rw [readSlot_eq]
      show ((( a.buf.take c ++ List.replicate (c - a.buf.length) none).set
        a.n (some x))[a.n]?).join = some x
      rw [List.getElem?_set_self (by rw [hBlen]; omega)]
      rfl

/-- Lemma: `add` on a fresh array whose allocator is about to fail returns -1 (the
failing branch `findAll` reacts to). -/
theorem add_fail_empty (a : DynArray α) (x : α) (hator : a.ator = [false])
    (hc : a.nAllocd = 0) (hn : a.n = 0) :
    ∃ a2, add a x = some (a2, -1) := by
  obtain ⟨buf, n, nA, ator, alive, cb, ctx, errs⟩ := a
  dsimp only at hator hc hn
  subst hator hc hn
  exact ⟨_, rfl⟩

/-- The `findAll` loop with a never-failing allocator accumulates exactly the
matching elements, in order, leaving the observer fields of the accumulator
untouched. -/
theorem findAllLoop_ok (d : DynArray α) (xs : List α) (p : α → Bool)
    (hS : Stores d xs) :
    ∀ fuel i (a : DynArray α) (ys : List α), d.n - i < fuel → Stores a ys →
      a.ator = [] → a.buf.length = a.nAllocd → a.nAllocd ≤ max 8 (2 * a.n) →
      a.n + (d.n - i) ≤ 2 ^ 62 →
      ∃ r, findAllLoop d p i a fuel = some r ∧
        Stores r (ys ++ (xs.drop i).filter p) ∧
        r.ator = [] ∧ r.alive = a.alive ∧ r.errorCb = a.errorCb ∧
        r.errorCbCtx = a.errorCbCtx ∧ r.errors = a.errors := by
  obtain ⟨hlen, hle, hread⟩ := hS
  intro fuel
  induction fuel with
  | zero =>
    intro i a ys hfuel
    omega
  | succ fuel ih =>
    intro i a ys hfuel hSa hator halen habound hsize
    obtain ⟨han, hale2, haread⟩ := hSa
    by_cases hi : i < d.n
    · have hixs : i < xs.length := by omega
      have hv : xs[i]? = some xs[i] := List.getElem?_eq_getElem hixs
      have hdrop : xs.drop i = xs[i] :: xs.drop (i + 1) :=
        List.drop_eq_getElem_cons hixs
      rw [findAllLoop, if_pos hi, hread i hi, hv]
      dsimp only
      by_cases hp : p xs[i]
      · rw [if_pos hp]
        obtain ⟨a2, hadd, ha2n, ha2len, ha2le, ha2bound, ha2tor, ha2alive, ha2cb,
          ha2ctx, ha2errs, ha2keep, ha2new⟩ :=
          add_ok a xs[i] hator halen (by omega) habound (by omega)
        rw [hadd]
        dsimp only
        rw [if_neg (by simp)]
        have hSa2 : Stores a2 (ys ++ [xs[i]]) := by
          refine ⟨by rw [ha2n, han]; simp, by omega, ?_⟩
          intro j hj
          by_cases hja : j < a.n
          · rw [ha2keep j hja, haread j hja,
              List.getElem?_append_left (by omega)]
          · have hjeq : j = a.n := by omega
            subst hjeq
            have hylen : ys.length = a.n := by omega
            rw [ha2new, ← hylen, List.getElem?_concat_length]
        obtain ⟨r, hr, hrS, hrtor, hralive, hrcb, hrctx, hrerrs⟩ :=
          ih (i + 1) a2 (ys ++ [xs[i]]) (by omega) hSa2 ha2tor ha2len
            (by omega) (by omega)
        refine ⟨r, hr, ?_, hrtor, by rw [hralive, ha2alive], by rw [hrcb, ha2cb],
          by rw [hrctx, ha2ctx], by rw [hrerrs, ha2errs]⟩
        rw [hdrop, List.filter_cons_of_pos hp]
        rw [List.append_assoc] at hrS
        exact hrS
      · rw [if_neg hp]
        obtain ⟨r, hr, hrS, hrtor, hralive, hrcb, hrctx, hrerrs⟩ :=
          ih (i + 1) a ys (by omega) ⟨han, hale2, haread⟩ hator halen habound
            (by omega)
        refine ⟨r, hr, ?_, hrtor, hralive, hrcb, hrctx, hrerrs⟩
        rw [hdrop, List.filter_cons_of_neg hp]
        exact hrS
    · rw [findAllLoop, if_neg hi]
      have hnil : xs.drop i = [] := List.drop_eq_nil_of_le (by omega)
      rw [hnil]
      exact ⟨a, rfl, by simp only [List.filter_nil, List.append_nil]; exact ⟨han, hale2, haread⟩,
        hator, rfl, rfl, rfl, rfl⟩

/-- The `findAll` loop with an allocator that fails its first call: as soon as
some element matches, the inner `add` fails and the loop returns a
default-constructed empty array. -/
theorem findAllLoop_fail (d : DynArray α) (xs : List α) (p : α → Bool)
    (hS : Stores d xs) :
    ∀ fuel i (a : DynArray α), d.n - i < fuel → a.ator = [false] →
      a.nAllocd = 0 → a.n = 0 →
      (∃ j, i ≤ j ∧ j < d.n ∧ ∃ y, xs[j]? = some y ∧ p y = true) →
      findAllLoop d p i a fuel = some ({} : DynArray α) := by
  obtain ⟨hlen, hle, hread⟩ := hS
  intro fuel
  induction fuel with
  | zero =>
    intro i a hfuel hator hc hn hj
    obtain ⟨j, hij, hjn, _⟩ := hj
    omega
  | succ fuel ih =>
    intro i a hfuel hator hc hn hj
    obtain ⟨j, hij, hjn, y, hy, hpy⟩ := hj
    have hi : i < d.n := by omega
    have hixs : i < xs.length := by omega
    have hv : xs[i]? = some xs[i] := List.getElem?_eq_getElem hixs
    rw [findAllLoop, if_pos hi, hread i hi, hv]
    dsimp only
    by_cases hp : p xs[i]
    · rw [if_pos hp]
      obtain ⟨a2, hadd⟩ := add_fail_empty a xs[i] hator hc hn
      rw [hadd]
      dsimp only
      rw [if_pos (by omega)]
    · rw [if_neg hp]
      have hji : i ≠ j := by
        intro hE
        subst hE
        rw [hv] at hy
        cases hy
        exact absurd hpy (by simp [hp])
      exact ih (i + 1) a (by omega) hator hc hn ⟨j, by omega, hjn, y, hy, hpy⟩


/-- C9 (counterexample): the claim says the result of `findAll` inherits the
source's error observer, callback and context pair.  The code copies only the
callback (`array.errorCb = errorCb;`): on a source with callback 7 and
context 9, the result carries callback 7 but the default null context 0, not
the source's context. -/
theorem findAll_observer_pair_cex :
    dObs.errorCb = 7 ∧ dObs.errorCbCtx = 9 ∧
    (findAll dObs (fun _ => true) []).map (fun r => (r.errorCb, r.errorCbCtx)) =
      some (7, 0) ∧
    ¬ (findAll dObs (fun _ => true) []).map (fun r => r.errorCbCtx) =
      some dObs.errorCbCtx := by
  decide

/-- C9 (amended): `findAll(p)` over a container storing `xs` (with a
never-failing result allocator) returns a new container storing exactly
`xs.filter p` — the copies of the matching elements in source order — whose
error *callback* is inherited from the source while the context pointer is
the default null (the pair is not inherited in full); and if some element
matches while the result array's allocator fails, the append failure makes it
return a default-constructed empty container.  (Stated for `count ≤ 2^61`,
which keeps the doubling of the result capacity inside `size_t`.) -/
theorem findAll_filter_inherits_callback (d : DynArray α) (xs : List α)
    (p : α → Bool) (hS : Stores d xs) (hn : d.n ≤ 2 ^ 61) :
    (∃ r, findAll d p [] = some r ∧ Stores r (xs.filter p) ∧
      r.errorCb = d.errorCb ∧ r.errorCbCtx = 0 ∧ r.errors = [] ∧
      r.alive = true ∧ r.ator = []) ∧
    (xs.any p = true → findAll d p [false] = some ({} : DynArray α)) := by
  constructor
  · have hstart : Stores ({ errorCb := d.errorCb } : DynArray α) [] :=
      ⟨rfl, Nat.le_refl 0, fun i hi => absurd hi (Nat.not_lt_zero i)⟩
    obtain ⟨r, hr, hrS, hrtor, hralive, hrcb, hrctx, hrerrs⟩ :=
      findAllLoop_ok d xs p hS (d.n + 1) 0 { errorCb := d.errorCb } []
        (by show d.n - 0 < d.n + 1; omega) hstart rfl rfl
        (by show (0 : Nat) ≤ max 8 (2 * 0); omega)
        (by show 0 + (d.n - 0) ≤ 2 ^ 62; omega)
    refine ⟨r, hr, ?_, hrcb, hrctx, hrerrs, hralive, hrtor⟩
    simpa using hrS
  · intro hany
    obtain ⟨y, hy, hpy⟩ := List.any_eq_true.mp hany
    obtain ⟨j, hjxs, hjy⟩ := List.getElem_of_mem hy
    have hjn : j < d.n := by
      obtain ⟨hlen, _, _⟩ := hS
      omega
    exact findAllLoop_fail d xs p hS (d.n + 1) 0
      { ator := [false], errorCb := d.errorCb }
      (by show d.n - 0 < d.n + 1; omega) rfl rfl rfl
      ⟨j, by omega, hjn, y, by rw [List.getElem?_eq_getElem hjxs, hjy], hpy⟩

/-- Closed witness for `findAll_filter_inherits_callback` on the container
`[1, 2, 3]` (observer fields default) and the is-even predicate. -/
theorem findAll_filter_inherits_callback_witness :
    (∃ r, findAll dC1 (fun x => decide (x % 2 = 0)) [] = some r ∧
      Stores r ([1, 2, 3].filter (fun x => decide (x % 2 = 0))) ∧
      r.errorCb = dC1.errorCb ∧ r.errorCbCtx = 0 ∧ r.errors = [] ∧
      r.alive = true ∧ r.ator = []) ∧
    ([1, 2, 3].any (fun x => decide (x % 2 = 0)) = true →
      findAll dC1 (fun x => decide (x % 2 = 0)) [false] = some ({} : DynArray Int)) :=
  findAll_filter_inherits_callback dC1 [1, 2, 3] (fun x => decide (x % 2 = 0))
    (by decide) (by show (3 : Nat) ≤ 2 ^ 61; norm_num)


/-- A list has a match exactly when `firstIdx` finds one. -/
theorem firstIdx_isSome (p : α → Bool) (xs : List α) :
    (firstIdx p xs).isSome = xs.any p := by
  induction xs with
  | nil => rfl
  | cons x t ih =>
    rw [firstIdx]
    by_cases hp : p x
    · rw [if_pos hp]
      simp [hp]
    · rw [if_neg hp, List.any_cons]
      have hfalse : p x = false := by simp at hp; exact hp
      rw [hfalse, ← ih]
      cases firstIdx p t <;> rfl

/-- Lemma: `firstIdx` returns the index of the first match: the slot holds a
matching element and every earlier slot fails the predicate. -/
theorem firstIdx_spec (p : α → Bool) (xs : List α) (j : Nat)
    (h : firstIdx p xs = some j) :
    ∃ x, xs[j]? = some x ∧ p x = true ∧
      ∀ m, m < j → ∀ y, xs[m]? = some y → p y = false := by
  induction xs generalizing j with
  | nil => cases h
  | cons x t ih =>
    rw [firstIdx] at h
    by_cases hp : p x
    · rw [if_pos hp] at h
      cases h
      exact ⟨x, List.getElem?_cons_zero, hp, fun m hm => absurd hm (Nat.not_lt_zero m)⟩
    · rw [if_neg hp] at h
      cases hfi : firstIdx p t with
      | none => rw [hfi] at h; cases h
      | some j0 =>
        rw [hfi] at h
        have hj : j0 + 1 = j := Option.some.inj h
        subst hj
        obtain ⟨x0, hx0, hpx0, hmin⟩ := ih j0 hfi
        refine ⟨x0, by rw [List.getElem?_cons_succ]; exact hx0, hpx0, ?_⟩
        intro m hm y hy
        cases m with
        | zero =>
          rw [List.getElem?_cons_zero] at hy
          cases hy
          simp at hp
          exact hp
        | succ m0 =>
          rw [List.getElem?_cons_succ] at hy
          exact hmin m0 (by omega) y hy

/-- The `exists` scan computes `any` over the remaining elements. -/
theorem existsLoop_eq (d : DynArray α) (xs : List α) (p : α → Bool)
    (hS : Stores d xs) :
    ∀ fuel i, d.n - i < fuel → existsLoop d p i fuel = some ((xs.drop i).any p) := by
  obtain ⟨hlen, hle, hread⟩ := hS
  intro fuel
  induction fuel with
  | zero =>
    intro i h
    omega
  | succ fuel ih =>
    intro i hfuel
    by_cases hi : i < d.n
    · have hixs : i < xs.length := by omega
      have hv : xs[i]? = some xs[i] := List.getElem?_eq_getElem hixs
      rw [existsLoop, if_pos hi, hread i hi, hv]
      dsimp only
      rw [List.drop_eq_getElem_cons hixs, List.any_cons]
      by_cases hp : p xs[i]
      · rw [if_pos hp, hp]
        rfl
      · have hfalse : p xs[i] = false := by simp at hp; exact hp
        rw [if_neg hp, ih (i + 1) (by omega), hfalse]
        rfl
    · rw [existsLoop, if_neg hi, List.drop_eq_nil_of_le (by omega)]
      rfl

/-- The `find` scan returns the index of the first match at or after `i`. -/
theorem findLoop_eq (d : DynArray α) (xs : List α) (p : α → Bool)
    (hS : Stores d xs) :
    ∀ fuel i, d.n - i < fuel →
      findLoop d p i fuel = some ((firstIdx p (xs.drop i)).map (fun k => k + i)) := by
  obtain ⟨hlen, hle, hread⟩ := hS
  intro fuel
  induction fuel with
  | zero =>
    intro i h
    omega
  | succ fuel ih =>
    intro i hfuel
    by_cases hi : i < d.n
    · have hixs : i < xs.length := by omega
      have hv : xs[i]? = some xs[i] := List.getElem?_eq_getElem hixs
      rw [findLoop, if_pos hi, hread i hi, hv]
      dsimp only
      rw [List.drop_eq_getElem_cons hixs, firstIdx]
      by_cases hp : p xs[i]
      · rw [if_pos hp, if_pos hp]
        simp
      · rw [if_neg hp, if_neg hp, ih (i + 1) (by omega)]
        cases hfi : firstIdx p (xs.drop (i + 1)) with
        | none => rfl
        | some k =>
          have harith : k + (i + 1) = k + 1 + i := by omega
          show some (some (k + (i + 1))) = some (some (k + 1 + i))
          rw [harith]
    · rw [findLoop, if_neg hi, List.drop_eq_nil_of_le (by omega)]
      rfl

/-- The `findIndex` scan over `[i, n)` returns the first matching index as a
signed value, -1 when there is none. -/
theorem findIndexLoop_eq (d : DynArray α) (xs : List α) (p : α → Bool)
    (hS : Stores d xs) :
    ∀ fuel i, d.n - i < fuel →
      findIndexLoop d p d.n i fuel =
        some (match firstIdx p (xs.drop i) with
              | some k => Int.ofNat (i + k)
              | none => -1) := by
  obtain ⟨hlen, hle, hread⟩ := hS
  intro fuel
  induction fuel with
  | zero =>
    intro i h
    omega
  | succ fuel ih =>
    intro i hfuel
    by_cases hi : i < d.n
    · have hixs : i < xs.length := by omega
      have hv : xs[i]? = some xs[i] := List.getElem?_eq_getElem hixs
      rw [findIndexLoop, if_pos hi, hread i hi, hv]
      dsimp only
      rw [List.drop_eq_getElem_cons hixs, firstIdx]
      by_cases hp : p xs[i]
      · rw [if_pos hp, if_pos hp]
        simp
      · rw [if_neg hp, if_neg hp, ih (i + 1) (by omega)]
        cases hfi : firstIdx p (xs.drop (i + 1)) with
        | none => rfl
        | some k =>
          have harith : i + 1 + k = i + (k + 1) := by omega
          show some (Int.ofNat (i + 1 + k)) = some (Int.ofNat (i + (k + 1)))
          rw [harith]
    · rw [findIndexLoop, if_neg hi, List.drop_eq_nil_of_le (by omega)]
      rfl


/-- C10: the three linear-search primitives agree.  Over a container storing
`xs`: `exists(p)` computes whether any element matches; `find(p)` returns a
pointer to the first match (null when none); on a non-empty container the
whole-container `findIndex(p)` returns the same first-match index (and -1
exactly when `find` returns null); `exists` is true iff `find` is non-null,
iff `findIndex` is non-negative; and the index `find`/`findIndex` agree on is
the first index whose element satisfies `p`. -/
theorem search_primitives_agree (d : DynArray α) (xs : List α) (p : α → Bool)
    (hS : Stores d xs) (hWn : d.n < W) :
    existsP d p = some (xs.any p) ∧
    find d p = some (firstIdx p xs) ∧
    (d.n ≠ 0 →
      findIndexWhole d p =
        (d, some (match firstIdx p xs with
                  | some k => Int.ofNat k
                  | none => -1))) ∧
    (existsP d p = some true ↔ ∃ j, find d p = some (some j)) ∧
    (d.n ≠ 0 →
      (existsP d p = some true ↔
        ∃ i : Int, (findIndexWhole d p).2 = some i ∧ 0 ≤ i)) ∧
    (∀ j, find d p = some (some j) →
      (findIndexWhole d p).2 = some (Int.ofNat j) ∧
      ∃ x, xs[j]? = some x ∧ p x = true ∧
        ∀ m, m < j → ∀ y, xs[m]? = some y → p y = false) := by
  have h1 : existsP d p = some (xs.any p) := by
    unfold existsP
    rw [existsLoop_eq d xs p hS (d.n + 1) 0 (by omega), List.drop_zero]
  have h2 : find d p = some (firstIdx p xs) := by
    unfold find
    rw [findLoop_eq d xs p hS (d.n + 1) 0 (by omega), List.drop_zero]
    cases hfi : firstIdx p xs with
    | none => rfl
    | some k =>
      show some (some (k + 0)) = some (some k)
      rw [Nat.add_zero]
  have h3 : d.n ≠ 0 →
      findIndexWhole d p =
        (d, some (match firstIdx p xs with
                  | some k => Int.ofNat k
                  | none => -1)) := by
    intro hne
    have he : (0 + d.n) % W = d.n := by
      rw [Nat.zero_add, Nat.mod_eq_of_lt hWn]
    unfold findIndexWhole findIndexRange
    rw [if_neg hne, he, if_neg (by omega),
      findIndexLoop_eq d xs p hS (d.n + 1) 0 (by omega), List.drop_zero]
    cases hfi : firstIdx p xs with
    | none => rfl
    | some k =>
      show (d, some (Int.ofNat (0 + k))) = (d, some (Int.ofNat k))
      rw [Nat.zero_add]
  refine ⟨h1, h2, h3, ?_, ?_, ?_⟩
  · rw [h1, h2]
    constructor
    · intro hany
      have hsome : (firstIdx p xs).isSome = true := by
        rw [firstIdx_isSome]
        exact Option.some.inj hany
      obtain ⟨j, hj⟩ := Option.isSome_iff_exists.mp hsome
      exact ⟨j, by rw [hj]⟩
    · intro hj
      obtain ⟨j, hj⟩ := hj
      have hfi : firstIdx p xs = some j := Option.some.inj hj
      have : xs.any p = true := by
        rw [← firstIdx_isSome, hfi]
        rfl
      rw [this]
  · intro hne
    rw [h1, h3 hne]
    dsimp only
    cases hfi : firstIdx p xs with
    | none =>
      have : xs.any p = false := by
        rw [← firstIdx_isSome, hfi]
        rfl
      rw [this]
      constructor
      · intro h
        simp at h
      · intro h
        obtain ⟨i, hi, hge⟩ := h
        have hival : (-1 : Int) = i := Option.some.inj hi
        omega
    | some k =>
      have : xs.any p = true := by
        rw [← firstIdx_isSome, hfi]
        rfl
      rw [this]
      constructor
      · intro _
        exact ⟨Int.ofNat k, rfl, Int.natCast_nonneg k⟩
      · intro _
        rfl
  · intro j hj
    rw [h2] at hj
    have hfi : firstIdx p xs = some j := Option.some.inj hj
    obtain ⟨x, hx, hpx, hmin⟩ := firstIdx_spec p xs j hfi
    have hjxs : j < xs.length := by
      by_contra hcon
      rw [List.getElem?_eq_none (by omega)] at hx
      cases hx
    have hne : d.n ≠ 0 := by
      have := hS.1
      omega
    rw [h3 hne]
    refine ⟨by rw [hfi], x, hx, hpx, hmin⟩

/-- Closed witness for `search_primitives_agree` on the container `[1, 2, 3]`
and the is-even predicate. -/
theorem search_primitives_agree_witness :
    existsP dC1 (fun x => decide (x % 2 = 0)) =
      some (([1, 2, 3] : List Int).any (fun x => decide (x % 2 = 0))) ∧
    find dC1 (fun x => decide (x % 2 = 0)) =
      some (firstIdx (fun x => decide (x % 2 = 0)) ([1, 2, 3] : List Int)) ∧
    (dC1.n ≠ 0 →
      findIndexWhole dC1 (fun x => decide (x % 2 = 0)) =
        (dC1, some (match firstIdx (fun x => decide (x % 2 = 0)) ([1, 2, 3] : List Int) with
                    | some k => Int.ofNat k
                    | none => -1))) ∧
    (existsP dC1 (fun x => decide (x % 2 = 0)) = some true ↔
      ∃ j, find dC1 (fun x => decide (x % 2 = 0)) = some (some j)) ∧
    (dC1.n ≠ 0 →
      (existsP dC1 (fun x => decide (x % 2 = 0)) = some true ↔
        ∃ i : Int, (findIndexWhole dC1 (fun x => decide (x % 2 = 0))).2 = some i ∧
          0 ≤ i)) ∧
    (∀ j, find dC1 (fun x => decide (x % 2 = 0)) = some (some j) →
      (findIndexWhole dC1 (fun x => decide (x % 2 = 0))).2 = some (Int.ofNat j) ∧
      ∃ x, ([1, 2, 3] : List Int)[j]? = some x ∧ decide (x % 2 = 0) = true ∧
        ∀ m, m < j → ∀ y, ([1, 2, 3] : List Int)[m]? = some y → decide (y % 2 = 0) = false) :=
  search_primitives_agree dC1 ([1, 2, 3] : List Int) (fun x => decide (x % 2 = 0)) (by decide)
    (by show (3 : Nat) < 2 ^ 64; norm_num)

end DynArrayModel
